import Mathlib

/-!
Verification development for the transformer Encoder module
(jatts/modules/transformer/encoder.py).

The development has two levels.

Construction level: a faithful translation of Encoder.__init__ and
Encoder.get_positionwise_layer as a total function from a configuration
record to either a construction error (modelling the Python exception
raised) or a record of the configuration-derived state the constructor
stores on the module (subsampling factor, embedder kind, per-layer
self-attention argument tuples, per-layer stochastic-depth rates, ...).

Runtime level: a shallow embedding of Encoder.forward and
Encoder.forward_one_step.  Activations are time-indexed lists of frames
(an abstract frame type), masks are time-indexed lists of mask rows
(an abstract row type).  The external collaborators that the encoder
merely orchestrates (the input embedder, the EncoderLayer instances,
the final LayerNorm, the auxiliary softmax and conditioning projection,
tensor addition) are fields of the runtime structure; theorems about
them take their interface contracts as hypotheses, following section 6
of the specification.
-/

namespace JattsEncoder

/-! ### Construction-time model -/

/-- Value passed as the input_layer argument: a string tag, an externally
supplied torch module instance, or Python None. -/
inductive InputLayerArg where
  | tag (s : String)
  | module
  | none
deriving DecidableEq

/-- Exception classes that Encoder.__init__ can raise, with their payloads.
The nameError case models a Python NameError for an identifier that is not
defined in the module (the payload is the missing identifier).  indexError
models the IndexError raised by indexing past the end of the split kernel
string.  typeError models the TypeError raised by torch.nn.Linear when
conditioning_layer_dim is None. -/
inductive ConstructError where
  | valueError (msg : String)
  | notImplementedError (msg : String)
  | nameError (missing : String)
  | indexError
  | typeError
deriving DecidableEq

/-- Which isinstance category the constructed self.embed module falls into.
Both the conv2d tag and the conv2d-scaled-pos-enc tag construct a
Conv2dSubsampling instance; everything else the constructor accepts is a
torch.nn.Sequential. -/
inductive EmbedKind where
  | conv2dSub
  | conv2dSub6
  | conv2dSub8
  | sequential
deriving DecidableEq

/-- Position-wise layer choice together with the argument tuple that
get_positionwise_layer returns for it. -/
inductive PositionwiseLayer where
  | positionwiseFeedForward (attention_dim linear_units : ℕ) (dropout_rate : ℚ)
  | multiLayeredConv1d (attention_dim linear_units kernel_size : ℕ) (dropout_rate : ℚ)
  | conv1dLinear (attention_dim linear_units kernel_size : ℕ) (dropout_rate : ℚ)
deriving DecidableEq

/-- Self-attention constructor selected by selfattention_layer_type. -/
inductive SelfattnKind where
  | multiHeadedAttention
  | lightweightConvolution
  | lightweightConvolution2D
  | dynamicConvolution
  | dynamicConvolution2D
deriving DecidableEq

/-- Per-layer argument tuple handed to the self-attention constructor. -/
inductive SelfattnArgs where
  | mha (attention_heads attention_dim : ℕ) (attention_dropout_rate : ℚ)
  | conv (conv_wshare attention_dim : ℕ) (attention_dropout_rate : ℚ)
      (kernel : ℤ) (lorder : Bool) (conv_usebias : Bool)
deriving DecidableEq

/-- Constructor arguments of Encoder.__init__, with the source defaults.
ctc_softmax is modelled as whether a module was supplied (the default is
None, i.e. false); pos_enc_class is an external class and is omitted. -/
structure EncoderConfig where
  idim : ℕ
  attention_dim : ℕ := 256
  attention_heads : ℕ := 4
  conv_wshare : ℕ := 4
  conv_kernel_length : String := "11"
  conv_usebias : Bool := false
  linear_units : ℕ := 2048
  num_blocks : ℕ := 6
  dropout_rate : ℚ := 1/10
  positional_dropout_rate : ℚ := 1/10
  attention_dropout_rate : ℚ := 0
  input_layer : InputLayerArg := InputLayerArg.tag "conv2d"
  normalize_before : Bool := true
  concat_after : Bool := false
  positionwise_layer_type : String := "linear"
  positionwise_conv_kernel_size : ℕ := 1
  selfattention_layer_type : String := "selfattn"
  padding_idx : ℤ := -1
  stochastic_depth_rate : ℚ := 0
  intermediate_layers : Option (List ℕ) := Option.none
  ctc_softmax : Bool := false
  conditioning_layer_dim : Option ℕ := Option.none
deriving DecidableEq

/-- Configuration-derived state stored on the module by a successful
Encoder.__init__. -/
structure EncoderInit where
  conv_subsampling_factor : ℕ
  embedKind : EmbedKind
  normalize_before : Bool
  positionwise : PositionwiseLayer
  encoder_selfattn_layer : SelfattnKind
  selfattn_args : List SelfattnArgs
  stochastic_depth_rates : List ℚ
  intermediate_layers : Option (List ℕ)
  use_conditioning : Bool
deriving DecidableEq

/-- Translation of Encoder.get_positionwise_layer: selects the position-wise
constructor and argument tuple, or raises NotImplementedError. -/
def get_positionwise_layer (positionwise_layer_type : String)
    (attention_dim linear_units : ℕ) (dropout_rate : ℚ)
    (positionwise_conv_kernel_size : ℕ) :
    Except ConstructError PositionwiseLayer :=
  if positionwise_layer_type = "linear" then
    Except.ok (PositionwiseLayer.positionwiseFeedForward attention_dim linear_units dropout_rate)
  else if positionwise_layer_type = "conv1d" then
    Except.ok (PositionwiseLayer.multiLayeredConv1d attention_dim linear_units
      positionwise_conv_kernel_size dropout_rate)
  else if positionwise_layer_type = "conv1d-linear" then
    Except.ok (PositionwiseLayer.conv1dLinear attention_dim linear_units
      positionwise_conv_kernel_size dropout_rate)
  else Except.error (ConstructError.notImplementedError "Support only linear or conv1d.")

/-- Translation of the selfattention_layer_type dispatch in
Encoder.__init__ (lines 149-225).  The module imports only
MultiHeadedAttention; the classes LightweightConvolution,
LightweightConvolution2D, DynamicConvolution and DynamicConvolution2D
assigned in the four convolutional branches (lines 165, 182, 196, 212)
are neither imported nor defined, so reaching any of those branches
raises NameError at the class-name assignment, before the kernel-length
list comprehension of those branches is ever evaluated.  Only an
unrecognized tag reaches the final NotImplementedError. -/
def selfattnSetup (cfg : EncoderConfig) :
    Except ConstructError (SelfattnKind × List SelfattnArgs) :=
  if cfg.selfattention_layer_type = "selfattn" ∨
      cfg.selfattention_layer_type = "rel_selfattn" ∨
      cfg.selfattention_layer_type = "legacy_rel_selfattn" then
    Except.ok (SelfattnKind.multiHeadedAttention,
      List.replicate cfg.num_blocks
        (SelfattnArgs.mha cfg.attention_heads cfg.attention_dim cfg.attention_dropout_rate))
  else if cfg.selfattention_layer_type = "lightconv" then
    Except.error (ConstructError.nameError "LightweightConvolution")
  else if cfg.selfattention_layer_type = "lightconv2d" then
    Except.error (ConstructError.nameError "LightweightConvolution2D")
  else if cfg.selfattention_layer_type = "dynamicconv" then
    Except.error (ConstructError.nameError "DynamicConvolution")
  else if cfg.selfattention_layer_type = "dynamicconv2d" then
    Except.error (ConstructError.nameError "DynamicConvolution2D")
  else Except.error (ConstructError.notImplementedError cfg.selfattention_layer_type)

/-- Translation of the input_layer dispatch in Encoder.__init__ (lines
96-140).  The branch for the string vgg2l constructs VGG2L, a name that
is neither imported nor defined in the module, so reaching that branch
raises NameError rather than the ValueError of the final else branch.
Returns the conv_subsampling_factor together with the isinstance category
of the constructed self.embed. -/
def inputLayerSetup (arg : InputLayerArg) :
    Except ConstructError (ℕ × EmbedKind) :=
  match arg with
  | InputLayerArg.tag s =>
      if s = "linear" then Except.ok (1, EmbedKind.sequential)
      else if s = "conv2d" then Except.ok (4, EmbedKind.conv2dSub)
      else if s = "conv2d-scaled-pos-enc" then Except.ok (4, EmbedKind.conv2dSub)
      else if s = "conv2d6" then Except.ok (6, EmbedKind.conv2dSub6)
      else if s = "conv2d8" then Except.ok (8, EmbedKind.conv2dSub8)
      else if s = "vgg2l" then Except.error (ConstructError.nameError "VGG2L")
      else if s = "embed" then Except.ok (1, EmbedKind.sequential)
      else Except.error (ConstructError.valueError ("unknown input_layer: " ++ s))
  | InputLayerArg.module => Except.ok (1, EmbedKind.sequential)
  | InputLayerArg.none => Except.ok (1, EmbedKind.sequential)

/-- Translation of Encoder.__init__: the input-layer dispatch, then
get_positionwise_layer, then the self-attention dispatch (which parses
the kernel-length string for the convolutional variants), then the
per-layer stochastic-depth schedule stochastic_depth_rate * (1 + lnum) /
num_blocks, then the conditioning setup (torch.nn.Linear raises TypeError
when ctc_softmax is supplied but conditioning_layer_dim is None).
Exceptions are raised in exactly this source order. -/
def Encoder.init (cfg : EncoderConfig) : Except ConstructError EncoderInit := do
  let fe ← inputLayerSetup cfg.input_layer
  let pw ← get_positionwise_layer cfg.positionwise_layer_type cfg.attention_dim
    cfg.linear_units cfg.dropout_rate cfg.positionwise_conv_kernel_size
  let sa ← selfattnSetup cfg
  let cond ← (if cfg.ctc_softmax then
      match cfg.conditioning_layer_dim with
      | Option.some _ => Except.ok true
      | Option.none => Except.error ConstructError.typeError
    else Except.ok false)
  Except.ok
    { conv_subsampling_factor := fe.1
      embedKind := fe.2
      normalize_before := cfg.normalize_before
      positionwise := pw
      encoder_selfattn_layer := sa.1
      selfattn_args := sa.2
      stochastic_depth_rates :=
        (List.range cfg.num_blocks).map
          (fun lnum : ℕ => cfg.stochastic_depth_rate * (1 + (lnum : ℚ)) / (cfg.num_blocks : ℚ))
      intermediate_layers := cfg.intermediate_layers
      use_conditioning := cond }

/-! ### Runtime model

Activations are time-indexed lists of frames over an abstract frame type
V (the batch and feature axes live inside V and are opaque to the
encoder); masks are time-indexed lists over an abstract row type W.  An
EncoderLayer instance is a function taking activations, a mask and an
optional cache entry, as in section 6 of the specification; the batch
path always calls it with no cache. -/

/-- Interface type of one EncoderLayer instance. -/
abbrev EncLayer (V W : Type) := List V → List W → Option (List V) → List V × List W

/-- Runtime state of a constructed Encoder: the embedder (its isinstance
category, its mask-consuming call and its mask-less call), the layer
stack, and the normalization / conditioning collaborators.  R is the raw
input frame type, V the hidden frame type, W the mask row type, P the
type of the auxiliary ctc_softmax prediction.  The add field models
tensor addition of the conditioning projection onto the activations. -/
structure Encoder (R V W P : Type) where
  embedKind : EmbedKind
  embedTM : List R → List W → List V × List W
  embedT : List R → List V
  encoders : List (EncLayer V W)
  normalize_before : Bool
  after_norm : List V → List V
  intermediate_layers : Option (List ℕ)
  use_conditioning : Bool
  ctc_softmax : List V → P
  conditioning_layer : P → List V
  add : List V → List V → List V

variable {R V W P : Type}

/-- Embedding dispatch of batch forward (lines 294-300): the three
Conv2dSubsampling classes are called with the mask and return a
subsampled mask; every other embedder is called on the activations alone
and the incoming mask is kept. -/
def embedStep (E : Encoder R V W P) (xs : List R) (masks : List W) : List V × List W :=
  if E.embedKind = EmbedKind.conv2dSub ∨ E.embedKind = EmbedKind.conv2dSub6 ∨
      E.embedKind = EmbedKind.conv2dSub8 then
    E.embedTM xs masks
  else (E.embedT xs, masks)

/-- Embedding dispatch of forward_one_step (lines 344-347): only the
Conv2dSubsampling class (the conv2d and conv2d-scaled-pos-enc variants)
is called with the mask. -/
def embedStepOne (E : Encoder R V W P) (xs : List R) (masks : List W) : List V × List W :=
  if E.embedKind = EmbedKind.conv2dSub then E.embedTM xs masks
  else (E.embedT xs, masks)

/-- Sequential application of the layer stack with no cache: the body of
self.encoders(xs, masks) (the MultiSequential built by repeat). -/
def runLayers : List (EncLayer V W) → List V → List W → List V × List W
  | [], xs, masks => (xs, masks)
  | l :: ls, xs, masks =>
      let r := l xs masks Option.none
      runLayers ls r.1 r.2

/-- The enumerate loop of batch forward when intermediate_layers is set
(lines 305-321): after layer layer_idx, if layer_idx + 1 is a configured
tap index, capture a copy (normalized when normalize_before), append it to
the intermediate outputs, and if conditioning is enabled add the projected
auxiliary prediction into the live activations. -/
def runLayersInter (E : Encoder R V W P) (ils : List ℕ) :
    List (EncLayer V W) → ℕ → List V → List W → List V × List W × List (List V)
  | [], _, xs, masks => (xs, masks, [])
  | l :: ls, layer_idx, xs, masks =>
      let r := l xs masks Option.none
      if layer_idx + 1 ∈ ils then
        let encoder_output := if E.normalize_before then E.after_norm r.1 else r.1
        let xs' := if E.use_conditioning then
            E.add r.1 (E.conditioning_layer (E.ctc_softmax encoder_output))
          else r.1
        let rest := runLayersInter E ils ls (layer_idx + 1) xs' r.2
        (rest.1, rest.2.1, encoder_output :: rest.2.2)
      else runLayersInter E ils ls (layer_idx + 1) r.1 r.2

/-- Translation of Encoder.forward (lines 282-328).  The third component
is the intermediate-outputs list, present exactly when intermediate_layers
is configured (in the source this changes the arity of the returned
tuple). -/
def Encoder.forward (E : Encoder R V W P) (xs : List R) (masks : List W) :
    List V × List W × Option (List (List V)) :=
  let em := embedStep E xs masks
  match E.intermediate_layers with
  | Option.none =>
      let r := runLayers E.encoders em.1 em.2
      let out := if E.normalize_before then E.after_norm r.1 else r.1
      (out, r.2, Option.none)
  | Option.some ils =>
      let r := runLayersInter E ils E.encoders 0 em.1 em.2
      let out := if E.normalize_before then E.after_norm r.1 else r.1
      (out, r.2.1, Option.some r.2.2)

/-- The loop for c, e in zip(cache, self.encoders) of forward_one_step:
each layer is invoked with its own cache entry and its activation output
is appended to the new cache.  As with Python zip, iteration stops at the
shorter of the two lists. -/
def stepZip : List (Option (List V)) → List (EncLayer V W) → List V → List W →
    List V × List W × List (List V)
  | c :: cs, l :: ls, xs, masks =>
      let r := l xs masks c
      let rest := stepZip cs ls r.1 r.2
      (rest.1, rest.2.1, r.1 :: rest.2.2)
  | [], _, xs, masks => (xs, masks, [])
  | _ :: _, [], xs, masks => (xs, masks, [])

/-- Translation of Encoder.forward_one_step (lines 330-356): embed the
chunk (passing the mask only for the Conv2dSubsampling embedder), create
a fresh per-layer cache of None entries when no cache is supplied, run
the zip loop, and normalize the result when normalize_before. -/
def Encoder.forward_one_step (E : Encoder R V W P) (xs : List R) (masks : List W)
    (cache : Option (List (Option (List V)))) : List V × List W × List (List V) :=
  let em := embedStepOne E xs masks
  let cache0 := match cache with
    | Option.none => List.replicate E.encoders.length Option.none
    | Option.some c => c
  let r := stepZip cache0 E.encoders em.1 em.2
  let out := if E.normalize_before then E.after_norm r.1 else r.1
  (out, r.2.1, r.2.2)

/-- Driver for the incremental protocol of section 4.4: call
forward_one_step on each successive chunk with the same full-visibility
mask, feeding the returned cache into the next call, and collect each
step output. -/
def runChunks (E : Encoder R V W P) (mf : List W) :
    List (List R) → Option (List (Option (List V))) → List (List V)
  | [], _ => []
  | c :: cs, cache =>
      let r := E.forward_one_step c mf cache
      r.1 :: runChunks E mf cs (Option.some (r.2.2.map Option.some))

/-- Ghost composition of per-layer batch functions: the activations after
running the whole stack. -/
def pipe (fs : List (List V → List V)) (x : List V) : List V :=
  fs.foldl (fun a f => f a) x

/-- Ghost per-layer outputs: the activations after each layer of the
stack, in order. -/
def pipeOuts : List (List V → List V) → List V → List (List V)
  | [], _ => []
  | f :: fs, x => f x :: pipeOuts fs (f x)

/-! ### Construction lemmas -/

/-- Inversion of a successful construction: each stage of Encoder.init
succeeded and the stored state is assembled from the stage results. -/
theorem init_ok_inv (cfg : EncoderConfig) (e : EncoderInit)
    (h : Encoder.init cfg = Except.ok e) :
    ∃ fe pw sa cond,
      inputLayerSetup cfg.input_layer = Except.ok fe ∧
      get_positionwise_layer cfg.positionwise_layer_type cfg.attention_dim cfg.linear_units
        cfg.dropout_rate cfg.positionwise_conv_kernel_size = Except.ok pw ∧
      selfattnSetup cfg = Except.ok sa ∧
      e = { conv_subsampling_factor := fe.1
            embedKind := fe.2
            normalize_before := cfg.normalize_before
            positionwise := pw
            encoder_selfattn_layer := sa.1
            selfattn_args := sa.2
            stochastic_depth_rates :=
              (List.range cfg.num_blocks).map
                (fun lnum : ℕ =>
                  cfg.stochastic_depth_rate * (1 + (lnum : ℚ)) / (cfg.num_blocks : ℚ))
            intermediate_layers := cfg.intermediate_layers
            use_conditioning := cond } := by
  unfold Encoder.init at h
  cases hfe : inputLayerSetup cfg.input_layer with
  | error err => rw [hfe] at h; exact absurd h (by simp [Bind.bind, Except.bind])
  | ok fe =>
    rw [hfe] at h
    simp only [Bind.bind, Except.bind] at h
    cases hpw : get_positionwise_layer cfg.positionwise_layer_type cfg.attention_dim
        cfg.linear_units cfg.dropout_rate cfg.positionwise_conv_kernel_size with
    | error err => rw [hpw] at h; exact absurd h (by simp)
    | ok pw =>
      rw [hpw] at h
      cases hsa : selfattnSetup cfg with
      | error err => rw [hsa] at h; exact absurd h (by simp)
      | ok sa =>
        rw [hsa] at h
        cases hcd : (if cfg.ctc_softmax then
            match cfg.conditioning_layer_dim with
            | Option.some _ => Except.ok true
            | Option.none => Except.error ConstructError.typeError
          else Except.ok false) with
        | error err => rw [hcd] at h; exact absurd h (by simp)
        | ok cond =>
          rw [hcd] at h
          simp only [Except.ok.injEq] at h
          exact ⟨fe, pw, sa, cond, rfl, rfl, rfl, h.symm⟩

/-- C5: for every successfully constructed encoder with a nonnegative base
rate, the skip probability recorded for 0-indexed layer i equals
stochastic_depth_rate * (i + 1) / num_blocks, and the schedule is
monotonically increasing across layers, strictly when the base rate is
positive. -/
theorem c5_stochastic_depth_schedule (cfg : EncoderConfig) (e : EncoderInit)
    (hr : 0 ≤ cfg.stochastic_depth_rate)
    (hinit : Encoder.init cfg = Except.ok e) :
    (∀ i, i < cfg.num_blocks →
      e.stochastic_depth_rates[i]?
        = Option.some (cfg.stochastic_depth_rate * ((i : ℚ) + 1) / (cfg.num_blocks : ℚ))) ∧
    (∀ i j, i < j → j < cfg.num_blocks →
      cfg.stochastic_depth_rate * ((i : ℚ) + 1) / (cfg.num_blocks : ℚ)
          ≤ cfg.stochastic_depth_rate * ((j : ℚ) + 1) / (cfg.num_blocks : ℚ)
        ∧ (0 < cfg.stochastic_depth_rate →
          cfg.stochastic_depth_rate * ((i : ℚ) + 1) / (cfg.num_blocks : ℚ)
            < cfg.stochastic_depth_rate * ((j : ℚ) + 1) / (cfg.num_blocks : ℚ))) := by
  obtain ⟨fe, pw, sa, cond, _, _, _, he⟩ := init_ok_inv cfg e hinit
  constructor
  · intro i hi
    subst he
    simp only [List.getElem?_map, List.getElem?_range hi, Option.map_some']
    congr 1
    ring
  · intro i j hij hj
    have hN : (0 : ℚ) < (cfg.num_blocks : ℚ) := by
      have h0 : 0 < cfg.num_blocks := by omega
      exact_mod_cast h0
    have hij' : (i : ℚ) + 1 ≤ (j : ℚ) + 1 := by
      have hle : (i : ℚ) ≤ (j : ℚ) := by exact_mod_cast Nat.le_of_lt hij
      linarith
    constructor
    · rw [div_le_div_iff hN hN]
      exact mul_le_mul_of_nonneg_right
        (mul_le_mul_of_nonneg_left hij' hr) hN.le
    · intro hrpos
      rw [div_lt_div_iff hN hN]
      have hlt : (i : ℚ) + 1 < (j : ℚ) + 1 := by
        have hc : (i : ℚ) < (j : ℚ) := by exact_mod_cast hij
        linarith
      exact mul_lt_mul_of_pos_right (mul_lt_mul_of_pos_left hlt hrpos) hN

/-- Bind of a successful Except computation. -/
theorem exBind_ok {ε α β : Type} (a : α) (f : α → Except ε β) :
    Bind.bind (Except.ok a : Except ε α) f = f a := rfl

/-- Bind of a failed Except computation short-circuits. -/
theorem exBind_error {ε α β : Type} (er : ε) (f : α → Except ε β) :
    Bind.bind (Except.error er : Except ε α) f = (Except.error er : Except ε β) := rfl

/-- A default configuration with the stochastic-depth base rate of testable
property 7 of the specification. -/
def cfg6 : EncoderConfig := { idim := 80, stochastic_depth_rate := 3/10 }

/-- The constructor state produced for cfg6. -/
def enc6 : EncoderInit :=
  { conv_subsampling_factor := 4
    embedKind := EmbedKind.conv2dSub
    normalize_before := true
    positionwise := PositionwiseLayer.positionwiseFeedForward 256 2048 (1/10)
    encoder_selfattn_layer := SelfattnKind.multiHeadedAttention
    selfattn_args := List.replicate 6 (SelfattnArgs.mha 4 256 0)
    stochastic_depth_rates :=
      (List.range 6).map (fun lnum : ℕ => (3/10 : ℚ) * (1 + (lnum : ℚ)) / ((6 : ℕ) : ℚ))
    intermediate_layers := Option.none
    use_conditioning := false }

/-- Witness for C5 at num_blocks = 6 and base rate 3/10: layer 2 is
assigned probability (3/10) * 3 / 6. -/
theorem c5_witness :
    (0 : ℚ) ≤ cfg6.stochastic_depth_rate ∧
    enc6.stochastic_depth_rates[(2 : ℕ)]?
      = Option.some (cfg6.stochastic_depth_rate * (((2 : ℕ) : ℚ) + 1) / (cfg6.num_blocks : ℚ)) :=
  ⟨by norm_num [cfg6],
    (c5_stochastic_depth_schedule cfg6 enc6 (by norm_num [cfg6]) rfl).1 2 (by norm_num [cfg6])⟩

/-- C9: the conv_subsampling_factor attribute recorded at construction is
4 for the conv2d and conv2d-scaled-pos-enc variants, 6 for conv2d6, 8 for
conv2d8, and 1 for every non-subsampling variant. -/
theorem c9_subsampling_factor (cfg : EncoderConfig) (e : EncoderInit)
    (hinit : Encoder.init cfg = Except.ok e) :
    ((cfg.input_layer = InputLayerArg.tag "conv2d" ∨
        cfg.input_layer = InputLayerArg.tag "conv2d-scaled-pos-enc") →
      e.conv_subsampling_factor = 4) ∧
    (cfg.input_layer = InputLayerArg.tag "conv2d6" → e.conv_subsampling_factor = 6) ∧
    (cfg.input_layer = InputLayerArg.tag "conv2d8" → e.conv_subsampling_factor = 8) ∧
    ((cfg.input_layer = InputLayerArg.tag "linear" ∨ cfg.input_layer = InputLayerArg.tag "embed" ∨
        cfg.input_layer = InputLayerArg.module ∨ cfg.input_layer = InputLayerArg.none) →
      e.conv_subsampling_factor = 1) := by
  obtain ⟨fe, pw, sa, cond, hfe, _, _, he⟩ := init_ok_inv cfg e hinit
  subst he
  refine ⟨?_, ?_, ?_, ?_⟩
  · rintro (hc | hc) <;> (rw [hc] at hfe; simp [inputLayerSetup] at hfe; simp [← hfe])
  · intro hc; rw [hc] at hfe; simp [inputLayerSetup] at hfe; simp [← hfe]
  · intro hc; rw [hc] at hfe; simp [inputLayerSetup] at hfe; simp [← hfe]
  · rintro (hc | hc | hc | hc) <;>
      (rw [hc] at hfe; simp [inputLayerSetup] at hfe; simp [← hfe])

/-- Witness for C9: the default conv2d variant records factor 4. -/
theorem c9_witness :
    (cfg6.input_layer = InputLayerArg.tag "conv2d" ∨
      cfg6.input_layer = InputLayerArg.tag "conv2d-scaled-pos-enc") ∧
    enc6.conv_subsampling_factor = 4 :=
  ⟨Or.inl rfl, (c9_subsampling_factor cfg6 enc6 rfl).1 (Or.inl rfl)⟩

/-- A configuration selecting the vgg2l input layer branch. -/
def cfgVgg : EncoderConfig := { idim := 80, input_layer := InputLayerArg.tag "vgg2l" }

/-- Counterexample to C7 as stated: the tag vgg2l is not among the
enumerated InputEmbedder variants, yet construction does not fail with a
configuration error naming the invalid value; it fails with a NameError
for the class VGG2L, which the module references without importing or
defining it. -/
theorem c7_counterexample :
    Encoder.init cfgVgg = Except.error (ConstructError.nameError "VGG2L") ∧
    Encoder.init cfgVgg
      ≠ Except.error (ConstructError.valueError ("unknown input_layer: " ++ "vgg2l")) := by
  have h1 : Encoder.init cfgVgg = Except.error (ConstructError.nameError "VGG2L") := rfl
  exact ⟨h1, by simp [h1]⟩

/-- C7 as amended: every input_layer string tag outside the enumerated
variants and other than vgg2l fails construction with the ValueError
naming the invalid value, before any forward call (the model raises it in
the first stage of construction). -/
theorem c7_unknown_input_layer_amended (s : String) (cfg : EncoderConfig)
    (hs : s ∉ ["linear", "conv2d", "conv2d-scaled-pos-enc", "conv2d6", "conv2d8",
        "vgg2l", "embed"])
    (hcfg : cfg.input_layer = InputLayerArg.tag s) :
    Encoder.init cfg
      = Except.error (ConstructError.valueError ("unknown input_layer: " ++ s)) := by
  simp only [List.mem_cons, List.not_mem_nil, or_false, not_or] at hs
  obtain ⟨h1, h2, h3, h4, h5, h6, h7⟩ := hs
  have hin : inputLayerSetup cfg.input_layer
      = Except.error (ConstructError.valueError ("unknown input_layer: " ++ s)) := by
    rw [hcfg]
    unfold inputLayerSetup
    dsimp only
    rw [if_neg h1, if_neg h2, if_neg h3, if_neg h4, if_neg h5, if_neg h6, if_neg h7]
  unfold Encoder.init
  rw [hin, exBind_error]

/-- Witness for the amended C7 at the concrete unknown tag bogus. -/
theorem c7_witness :
    ("bogus" ∉ ["linear", "conv2d", "conv2d-scaled-pos-enc", "conv2d6", "conv2d8",
        "vgg2l", "embed"]) ∧
    Encoder.init { idim := 80, input_layer := InputLayerArg.tag "bogus" }
      = Except.error (ConstructError.valueError ("unknown input_layer: " ++ "bogus")) :=
  ⟨by decide, c7_unknown_input_layer_amended "bogus" _ (by decide) rfl⟩

/-- Counterexample to C8 as stated: selecting the lightconv attention
variant with kernel string 3_3 and num_blocks 4 (fewer underscore
entries than blocks, every entry numeric) does not fail with an
index-out-of-range error.  It fails with a NameError for
LightweightConvolution, which the module assigns at line 165 without
importing or defining it, before the kernel string is ever indexed. -/
theorem c8_counterexample :
    Encoder.init
        { idim := 7
          conv_kernel_length := "3_3"
          num_blocks := 4
          selfattention_layer_type := "lightconv" }
      = Except.error (ConstructError.nameError "LightweightConvolution") ∧
    Encoder.init
        { idim := 7
          conv_kernel_length := "3_3"
          num_blocks := 4
          selfattention_layer_type := "lightconv" }
      ≠ Except.error ConstructError.indexError := by
  have h1 : Encoder.init
      { idim := 7
        conv_kernel_length := "3_3"
        num_blocks := 4
        selfattention_layer_type := "lightconv" }
      = Except.error (ConstructError.nameError "LightweightConvolution") := rfl
  refine ⟨h1, ?_⟩
  rw [h1]
  simp

/-- C8 as amended: an unrecognized self-attention tag and an unrecognized
position-wise tag each fail construction with NotImplementedError; each
of the four convolutional attention variants fails construction with a
NameError naming the unimported attention class, whatever the
conv_kernel_length string and num_blocks — in particular for a kernel
string with fewer entries than blocks, where the index-out-of-range
failure is unreachable because the class-name assignment raises first;
and on every successful construction the per-layer argument list is fully
resolved (one entry per block), so no such error remains to be raised by
the forward paths, which are total functions. -/
theorem c8_construction_errors_amended :
    (∀ s : String, s ∉ ["selfattn", "rel_selfattn", "legacy_rel_selfattn", "lightconv",
        "lightconv2d", "dynamicconv", "dynamicconv2d"] →
      ∀ idim : ℕ, Encoder.init { idim := idim, selfattention_layer_type := s }
        = Except.error (ConstructError.notImplementedError s)) ∧
    (∀ p : String, p ∉ ["linear", "conv1d", "conv1d-linear"] →
      ∀ idim : ℕ, Encoder.init { idim := idim, positionwise_layer_type := p }
        = Except.error (ConstructError.notImplementedError "Support only linear or conv1d.")) ∧
    (∀ (ks : String) (n idim : ℕ),
      Encoder.init
          { idim := idim
            conv_kernel_length := ks
            num_blocks := n
            selfattention_layer_type := "lightconv" }
        = Except.error (ConstructError.nameError "LightweightConvolution")) ∧
    (∀ (ks : String) (n idim : ℕ),
      Encoder.init
          { idim := idim
            conv_kernel_length := ks
            num_blocks := n
            selfattention_layer_type := "lightconv2d" }
        = Except.error (ConstructError.nameError "LightweightConvolution2D")) ∧
    (∀ (ks : String) (n idim : ℕ),
      Encoder.init
          { idim := idim
            conv_kernel_length := ks
            num_blocks := n
            selfattention_layer_type := "dynamicconv" }
        = Except.error (ConstructError.nameError "DynamicConvolution")) ∧
    (∀ (ks : String) (n idim : ℕ),
      Encoder.init
          { idim := idim
            conv_kernel_length := ks
            num_blocks := n
            selfattention_layer_type := "dynamicconv2d" }
        = Except.error (ConstructError.nameError "DynamicConvolution2D")) ∧
    (∀ (cfg : EncoderConfig) (e : EncoderInit), Encoder.init cfg = Except.ok e →
      e.selfattn_args.length = cfg.num_blocks) := by
  refine ⟨?_, ?_, ?_, ?_, ?_, ?_, ?_⟩
  · intro s hs idim
    simp only [List.mem_cons, List.not_mem_nil, or_false, not_or] at hs
    obtain ⟨n1, n2, n3, n4, n5, n6, n7⟩ := hs
    have hsa : selfattnSetup { idim := idim, selfattention_layer_type := s }
        = Except.error (ConstructError.notImplementedError s) := by
      unfold selfattnSetup
      dsimp only
      rw [if_neg (by push_neg; exact ⟨n1, n2, n3⟩), if_neg n4, if_neg n5, if_neg n6, if_neg n7]
    unfold Encoder.init
    dsimp only
    simp only [show inputLayerSetup (InputLayerArg.tag "conv2d")
        = Except.ok (4, EmbedKind.conv2dSub) from rfl, exBind_ok]
    simp only [show get_positionwise_layer "linear" 256 2048 (1/10 : ℚ) 1
        = Except.ok (PositionwiseLayer.positionwiseFeedForward 256 2048 (1/10 : ℚ)) from rfl,
      exBind_ok]
    simp only [hsa, exBind_error]
  · intro p hp idim
    simp only [List.mem_cons, List.not_mem_nil, or_false, not_or] at hp
    obtain ⟨p1, p2, p3⟩ := hp
    have hpw : get_positionwise_layer p 256 2048 (1/10 : ℚ) 1
        = Except.error (ConstructError.notImplementedError "Support only linear or conv1d.") := by
      unfold get_positionwise_layer
      rw [if_neg p1, if_neg p2, if_neg p3]
    unfold Encoder.init
    dsimp only
    simp only [show inputLayerSetup (InputLayerArg.tag "conv2d")
        = Except.ok (4, EmbedKind.conv2dSub) from rfl, exBind_ok]
    simp only [hpw, exBind_error]
  · intro ks n idim
    have hsa : selfattnSetup
        { idim := idim
          conv_kernel_length := ks
          num_blocks := n
          selfattention_layer_type := "lightconv" }
        = Except.error (ConstructError.nameError "LightweightConvolution") := by
      unfold selfattnSetup
      dsimp only
      rw [if_neg (by decide), if_pos rfl]
    unfold Encoder.init
    dsimp only
    simp only [show inputLayerSetup (InputLayerArg.tag "conv2d")
        = Except.ok (4, EmbedKind.conv2dSub) from rfl, exBind_ok]
    simp only [show get_positionwise_layer "linear" 256 2048 (1/10 : ℚ) 1
        = Except.ok (PositionwiseLayer.positionwiseFeedForward 256 2048 (1/10 : ℚ)) from rfl,
      exBind_ok]
    simp only [hsa, exBind_error]
  · intro ks n idim
    have hsa : selfattnSetup
        { idim := idim
          conv_kernel_length := ks
          num_blocks := n
          selfattention_layer_type := "lightconv2d" }
        = Except.error (ConstructError.nameError "LightweightConvolution2D") := by
      unfold selfattnSetup
      dsimp only
      rw [if_neg (by decide), if_neg (by decide), if_pos rfl]
    unfold Encoder.init
    dsimp only
    simp only [show inputLayerSetup (InputLayerArg.tag "conv2d")
        = Except.ok (4, EmbedKind.conv2dSub) from rfl, exBind_ok]
    simp only [show get_positionwise_layer "linear" 256 2048 (1/10 : ℚ) 1
        = Except.ok (PositionwiseLayer.positionwiseFeedForward 256 2048 (1/10 : ℚ)) from rfl,
      exBind_ok]
    simp only [hsa, exBind_error]
  · intro ks n idim
    have hsa : selfattnSetup
        { idim := idim
          conv_kernel_length := ks
          num_blocks := n
          selfattention_layer_type := "dynamicconv" }
        = Except.error (ConstructError.nameError "DynamicConvolution") := by
      unfold selfattnSetup
      dsimp only
      rw [if_neg (by decide), if_neg (by decide), if_neg (by decide), if_pos rfl]
    unfold Encoder.init
    dsimp only
    simp only [show inputLayerSetup (InputLayerArg.tag "conv2d")
        = Except.ok (4, EmbedKind.conv2dSub) from rfl, exBind_ok]
    simp only [show get_positionwise_layer "linear" 256 2048 (1/10 : ℚ) 1
        = Except.ok (PositionwiseLayer.positionwiseFeedForward 256 2048 (1/10 : ℚ)) from rfl,
      exBind_ok]
    simp only [hsa, exBind_error]
  · intro ks n idim
    have hsa : selfattnSetup
        { idim := idim
          conv_kernel_length := ks
          num_blocks := n
          selfattention_layer_type := "dynamicconv2d" }
        = Except.error (ConstructError.nameError "DynamicConvolution2D") := by
      unfold selfattnSetup
      dsimp only
      rw [if_neg (by decide), if_neg (by decide), if_neg (by decide), if_neg (by decide),
        if_pos rfl]
    unfold Encoder.init
    dsimp only
    simp only [show inputLayerSetup (InputLayerArg.tag "conv2d")
        = Except.ok (4, EmbedKind.conv2dSub) from rfl, exBind_ok]
    simp only [show get_positionwise_layer "linear" 256 2048 (1/10 : ℚ) 1
        = Except.ok (PositionwiseLayer.positionwiseFeedForward 256 2048 (1/10 : ℚ)) from rfl,
      exBind_ok]
    simp only [hsa, exBind_error]
  · intro cfg e h
    obtain ⟨fe, pw, sa, cond, _, _, hsa, he⟩ := init_ok_inv cfg e h
    subst he
    dsimp only
    unfold selfattnSetup at hsa
    split_ifs at hsa with hA hB hC hD hE
    simp only [Except.ok.injEq] at hsa
    rw [← hsa]
    simp

/-- Witness for the amended C8: a bogus self-attention tag, a bogus
position-wise tag, and a convolutional variant with the short kernel
string 3_3 of testable property 6, which fails with the NameError. -/
theorem c8_witness :
    ("bogus" ∉ ["selfattn", "rel_selfattn", "legacy_rel_selfattn", "lightconv",
        "lightconv2d", "dynamicconv", "dynamicconv2d"]) ∧
    Encoder.init { idim := 7, selfattention_layer_type := "bogus" }
      = Except.error (ConstructError.notImplementedError "bogus") ∧
    Encoder.init { idim := 7, positionwise_layer_type := "tanh" }
      = Except.error (ConstructError.notImplementedError "Support only linear or conv1d.") ∧
    Encoder.init
        { idim := 7
          conv_kernel_length := "3_3"
          num_blocks := 4
          selfattention_layer_type := "dynamicconv2d" }
      = Except.error (ConstructError.nameError "DynamicConvolution2D") :=
  ⟨by decide,
    c8_construction_errors_amended.1 "bogus" (by decide) 7,
    c8_construction_errors_amended.2.1 "tanh" (by decide) 7,
    c8_construction_errors_amended.2.2.2.2.2.1 "3_3" 4 7⟩

/-! ### Runtime lemmas and claims -/

/-- With conditioning disabled, the tap-instrumented loop computes the
same live activations and mask as the plain sequential loop, whatever the
tap indices. -/
theorem runLayersInter_nocond (E : Encoder R V W P) (hcond : E.use_conditioning = false)
    (ils : List ℕ) :
    ∀ (ls : List (EncLayer V W)) (idx : ℕ) (x : List V) (m : List W),
      (runLayersInter E ils ls idx x m).1 = (runLayers ls x m).1 ∧
      (runLayersInter E ils ls idx x m).2.1 = (runLayers ls x m).2 := by
  intro ls
  induction ls with
  | nil => intro idx x m; exact ⟨rfl, rfl⟩
  | cons l ls ih =>
      intro idx x m
      simp only [runLayersInter, runLayers]
      by_cases h : idx + 1 ∈ ils
      · simp only [if_pos h, hcond, Bool.false_eq_true, if_false]
        exact ih (idx + 1) _ _
      · simp only [if_neg h]
        exact ih (idx + 1) _ _

/-- C2: with conditioning disabled, running batch forward with taps
configured returns the same final activations and the same final mask as
running with no taps configured; the only difference is that the
intermediate-outputs sequence is additionally returned. -/
theorem c2_tap_transparency (E : Encoder R V W P) (ils : List ℕ)
    (xs : List R) (masks : List W) (hcond : E.use_conditioning = false) :
    (({ E with intermediate_layers := Option.some ils }).forward xs masks).1
        = (({ E with intermediate_layers := Option.none }).forward xs masks).1 ∧
    (({ E with intermediate_layers := Option.some ils }).forward xs masks).2.1
        = (({ E with intermediate_layers := Option.none }).forward xs masks).2.1 ∧
    (({ E with intermediate_layers := Option.some ils }).forward xs masks).2.2.isSome
        = true := by
  have hc1 : ({ E with intermediate_layers := Option.some ils } : Encoder R V W P).use_conditioning
      = false := hcond
  have hmain := runLayersInter_nocond { E with intermediate_layers := Option.some ils } hc1 ils
    E.encoders 0 (embedStep E xs masks).1 (embedStep E xs masks).2
  have hembS : embedStep { E with intermediate_layers := Option.some ils } xs masks
      = embedStep E xs masks := rfl
  have hembN : embedStep { E with intermediate_layers := Option.none } xs masks
      = embedStep E xs masks := rfl
  unfold Encoder.forward
  dsimp only
  rw [hembS, hembN]
  refine ⟨?_, ?_, rfl⟩
  · rw [hmain.1]
  · exact hmain.2

/-- Witness encoder shared by C2 and C3: a single identity layer over
integer frames, with a length-preserving embedder pair. -/
def EwId : Encoder ℤ ℤ ℤ ℤ :=
  { embedKind := EmbedKind.sequential
    embedTM := fun x _ => (x, x.map (fun _ => 0))
    embedT := fun x => x
    encoders := [fun x m _ => (x, m)]
    normalize_before := false
    after_norm := fun x => x
    intermediate_layers := Option.none
    use_conditioning := false
    ctc_softmax := fun _ => 0
    conditioning_layer := fun _ => []
    add := fun a _ => a }

/-- Witness for C2 at a concrete input. -/
theorem c2_witness :
    EwId.use_conditioning = false ∧
    (({ EwId with intermediate_layers := Option.some [1] }).forward [2] [3]).1
      = (({ EwId with intermediate_layers := Option.none }).forward [2] [3]).1 :=
  ⟨rfl, (c2_tap_transparency EwId [1] [2] [3] rfl).1⟩

/-- Layers whose outputs keep the time lengths of their inputs keep the
activation/mask length alignment through the plain sequential loop. -/
theorem runLayers_len_inv :
    ∀ (ls : List (EncLayer V W)),
      (∀ l ∈ ls, ∀ x m c, ((l x m c).1).length = x.length ∧ ((l x m c).2).length = m.length) →
      ∀ (x : List V) (m : List W), x.length = m.length →
      ((runLayers ls x m).1).length = ((runLayers ls x m).2).length := by
  intro ls
  induction ls with
  | nil => intro _ x m h; exact h
  | cons l ls ih =>
      intro hl x m h
      simp only [runLayers]
      apply ih (fun l2 hl2 => hl l2 (List.mem_cons_of_mem _ hl2))
      rw [(hl l (List.mem_cons_self _ _) x m Option.none).1,
        (hl l (List.mem_cons_self _ _) x m Option.none).2]
      exact h

/-- The same alignment holds through the tap-instrumented loop: the
normalized copies never touch the live path, and the conditioning add
keeps the length of its left operand. -/
theorem runLayersInter_len_inv (E : Encoder R V W P) (ils : List ℕ)
    (haddlen : ∀ a b, (E.add a b).length = a.length) :
    ∀ (ls : List (EncLayer V W)),
      (∀ l ∈ ls, ∀ x m c, ((l x m c).1).length = x.length ∧ ((l x m c).2).length = m.length) →
      ∀ (idx : ℕ) (x : List V) (m : List W), x.length = m.length →
      ((runLayersInter E ils ls idx x m).1).length
        = ((runLayersInter E ils ls idx x m).2.1).length := by
  intro ls
  induction ls with
  | nil => intro _ idx x m h; exact h
  | cons l ls ih =>
      intro hl idx x m h
      have hx := (hl l (List.mem_cons_self _ _) x m Option.none).1
      have hm := (hl l (List.mem_cons_self _ _) x m Option.none).2
      simp only [runLayersInter]
      by_cases htap : idx + 1 ∈ ils
      · simp only [if_pos htap]
        apply ih (fun l2 hl2 => hl l2 (List.mem_cons_of_mem _ hl2))
        by_cases hc : E.use_conditioning = true
        · rw [if_pos hc, haddlen, hx, hm]; exact h
        · rw [if_neg hc, hx, hm]; exact h
      · simp only [if_neg htap]
        apply ih (fun l2 hl2 => hl l2 (List.mem_cons_of_mem _ hl2))
        rw [hx, hm]; exact h

/-- C3: under the interface contracts of the collaborators (a subsampling
embedder returns a mask of the same time length as its activations, a
non-subsampling embedder keeps the time length and the caller supplies an
already-matching mask, layers and the final normalization keep time
lengths, tensor addition keeps the length of its left operand), the mask
time length equals the activation time length immediately after the
embedding step, after every layer of the plain path, after every layer of
the tap-instrumented path, and for the values returned by batch forward. -/
theorem c3_mask_length_invariant (E : Encoder R V W P) (xs : List R) (masks : List W)
    (hsub : ∀ x m, ((E.embedTM x m).1).length = ((E.embedTM x m).2).length)
    (hlin : ∀ x, (E.embedT x).length = x.length)
    (hvalid : masks.length = xs.length)
    (hlayers : ∀ l ∈ E.encoders, ∀ x m c,
      ((l x m c).1).length = x.length ∧ ((l x m c).2).length = m.length)
    (hnorm : ∀ x, (E.after_norm x).length = x.length)
    (haddlen : ∀ a b, (E.add a b).length = a.length) :
    ((embedStep E xs masks).1.length = (embedStep E xs masks).2.length) ∧
    (∀ k, (runLayers (E.encoders.take k) (embedStep E xs masks).1
          (embedStep E xs masks).2).1.length
        = (runLayers (E.encoders.take k) (embedStep E xs masks).1
          (embedStep E xs masks).2).2.length) ∧
    (∀ ils k, (runLayersInter E ils (E.encoders.take k) 0 (embedStep E xs masks).1
          (embedStep E xs masks).2).1.length
        = (runLayersInter E ils (E.encoders.take k) 0 (embedStep E xs masks).1
          (embedStep E xs masks).2).2.1.length) ∧
    ((E.forward xs masks).1.length = (E.forward xs masks).2.1.length) := by
  have hembLen : (embedStep E xs masks).1.length = (embedStep E xs masks).2.length := by
    unfold embedStep
    by_cases hk : (E.embedKind = EmbedKind.conv2dSub ∨ E.embedKind = EmbedKind.conv2dSub6 ∨
        E.embedKind = EmbedKind.conv2dSub8)
    · rw [if_pos hk]; exact hsub xs masks
    · rw [if_neg hk]
      dsimp only
      rw [hlin xs]
      exact hvalid.symm
  refine ⟨hembLen, ?_, ?_, ?_⟩
  · intro k
    exact runLayers_len_inv (E.encoders.take k)
      (fun l hl => hlayers l (List.take_subset _ _ hl)) _ _ hembLen
  · intro ils k
    exact runLayersInter_len_inv E ils haddlen (E.encoders.take k)
      (fun l hl => hlayers l (List.take_subset _ _ hl)) 0 _ _ hembLen
  · unfold Encoder.forward
    cases hil : E.intermediate_layers with
    | none =>
        dsimp only
        have hrun := runLayers_len_inv E.encoders hlayers _ _ hembLen
        by_cases hn : E.normalize_before = true
        · rw [if_pos hn, hnorm]; exact hrun
        · rw [if_neg hn]; exact hrun
    | some ils =>
        dsimp only
        have hrun := runLayersInter_len_inv E ils haddlen E.encoders hlayers 0 _ _ hembLen
        by_cases hn : E.normalize_before = true
        · rw [if_pos hn, hnorm]; exact hrun
        · rw [if_neg hn]; exact hrun

/-- Witness for C3 at a concrete input with matching mask length. -/
theorem c3_witness :
    ([(5 : ℤ)].length = [(2 : ℤ)].length) ∧
    (EwId.forward [2] [5]).1.length = (EwId.forward [2] [5]).2.1.length :=
  ⟨rfl,
    (c3_mask_length_invariant EwId [2] [5]
      (by intro x m; simp [EwId])
      (fun x => rfl)
      rfl
      (by intro l hl x m c; simp only [EwId, List.mem_singleton] at hl; subst hl
          exact ⟨rfl, rfl⟩)
      (fun x => rfl)
      (fun a b => rfl)).2.2.2⟩

/-- The new cache collected by the zip loop has one entry per zipped
layer. -/
theorem stepZip_cache_len :
    ∀ (ls : List (EncLayer V W)) (cs : List (Option (List V))) (x : List V) (m : List W),
      cs.length = ls.length → ((stepZip cs ls x m).2.2).length = ls.length := by
  intro ls
  induction ls with
  | nil =>
      intro cs x m h
      have hc : cs = [] := List.length_eq_zero.mp h
      subst hc
      rfl
  | cons l ls ih =>
      intro cs x m h
      cases cs with
      | nil => simp at h
      | cons c cs =>
          simp only [List.length_cons] at h
          simp only [stepZip, List.length_cons]
          rw [ih cs _ _ (by omega)]

/-- Entry i of the new cache is the activation output of layer i for this
step: the first component of running the first i+1 zipped layers. -/
theorem stepZip_cache_get :
    ∀ (ls : List (EncLayer V W)) (cs : List (Option (List V))) (x : List V) (m : List W) (i : ℕ),
      cs.length = ls.length → i < ls.length →
      ((stepZip cs ls x m).2.2)[i]?
        = Option.some ((stepZip (cs.take (i + 1)) (ls.take (i + 1)) x m).1) := by
  intro ls
  induction ls with
  | nil => intro cs x m i _ hi; exact absurd hi (by simp)
  | cons l ls ih =>
      intro cs x m i h hi
      cases cs with
      | nil => simp at h
      | cons c cs =>
          simp only [List.length_cons] at h hi
          cases i with
          | zero => simp [stepZip]
          | succ i =>
              simp only [stepZip, List.take_succ_cons, List.getElem?_cons_succ]
              exact ih cs _ _ i (by omega) (by omega)

/-- C4: when no cache is supplied forward_one_step behaves exactly as if
a fresh cache of one None entry per layer had been passed; the returned
new cache has one entry per layer (for the fresh cache and for any
supplied cache that respects the cache contract of one entry per layer);
and entry i is layer i's activation output for the step. -/
theorem c4_one_step_cache (E : Encoder R V W P) (xs : List R) (masks : List W) :
    (E.forward_one_step xs masks Option.none
      = E.forward_one_step xs masks
          (Option.some (List.replicate E.encoders.length Option.none))) ∧
    ((E.forward_one_step xs masks Option.none).2.2.length = E.encoders.length) ∧
    (∀ c, c.length = E.encoders.length →
      (E.forward_one_step xs masks (Option.some c)).2.2.length = E.encoders.length) ∧
    (∀ c, c.length = E.encoders.length → ∀ i, i < E.encoders.length →
      ((E.forward_one_step xs masks (Option.some c)).2.2)[i]?
        = Option.some ((stepZip (c.take (i + 1)) (E.encoders.take (i + 1))
            (embedStepOne E xs masks).1 (embedStepOne E xs masks).2).1)) := by
  refine ⟨rfl, ?_, ?_, ?_⟩
  · unfold Encoder.forward_one_step
    dsimp only
    exact stepZip_cache_len E.encoders _ _ _ (List.length_replicate _ _)
  · intro c hc
    unfold Encoder.forward_one_step
    dsimp only
    exact stepZip_cache_len E.encoders c _ _ hc
  · intro c hc i hi
    unfold Encoder.forward_one_step
    dsimp only
    exact stepZip_cache_get E.encoders c _ _ i hc hi

/-- Witness encoder for C4: two integer layers, one shifting by the cache
head and one incrementing frames. -/
def EwC4 : Encoder ℤ ℤ ℤ ℤ :=
  { embedKind := EmbedKind.sequential
    embedTM := fun x _ => (x, x.map (fun _ => 0))
    embedT := fun x => x
    encoders := [fun x m c => ((c.getD []) ++ x, m), fun x m _ => (x.map (fun a => a + 1), m)]
    normalize_before := false
    after_norm := fun x => x
    intermediate_layers := Option.none
    use_conditioning := false
    ctc_softmax := fun _ => 0
    conditioning_layer := fun _ => []
    add := fun a _ => a }

/-- Witness for C4 at a concrete supplied cache of contract length. -/
theorem c4_witness :
    ([Option.some [(9 : ℤ)], Option.some [8]].length = EwC4.encoders.length) ∧
    ((EwC4.forward_one_step [1] [0]
        (Option.some [Option.some [(9 : ℤ)], Option.some [8]])).2.2)[1]?
      = Option.some ((stepZip ([Option.some [(9 : ℤ)], Option.some [8]].take 2)
          (EwC4.encoders.take 2) (embedStepOne EwC4 [1] [0]).1
          (embedStepOne EwC4 [1] [0]).2).1) :=
  ⟨rfl, (c4_one_step_cache EwC4 [1] [0]).2.2.2 _ rfl 1 (by decide)⟩

/-- When every layer returns its incoming mask unchanged, the zip loop
returns the incoming mask unchanged. -/
theorem stepZip_mask_pres :
    ∀ (ls : List (EncLayer V W)),
      (∀ l ∈ ls, ∀ x m c, (l x m c).2 = m) →
      ∀ (cs : List (Option (List V))) (x : List V) (m : List W),
        (stepZip cs ls x m).2.1 = m := by
  intro ls
  induction ls with
  | nil => intro _ cs x m; cases cs <;> rfl
  | cons l ls ih =>
      intro hl cs x m
      cases cs with
      | nil => rfl
      | cons c cs =>
          simp only [stepZip]
          rw [ih (fun l2 hl2 => hl l2 (List.mem_cons_of_mem _ hl2)) cs _ _,
            hl l (List.mem_cons_self _ _) x m c]

/-- C10: batch forward hands the mask to the embedder for all three
Conv2dSubsampling classes, while forward_one_step does so only for the
Conv2dSubsampling class itself; for every other embedder kind (including
conv2d6 and conv2d8) forward_one_step embeds the activations alone and,
provided the layers preserve masks, returns the caller's mask unchanged. -/
theorem c10_embed_dispatch (E : Encoder R V W P) (xs : List R) (masks : List W)
    (hpres : ∀ l ∈ E.encoders, ∀ x m c, (l x m c).2 = m) :
    ((E.embedKind = EmbedKind.conv2dSub ∨ E.embedKind = EmbedKind.conv2dSub6 ∨
        E.embedKind = EmbedKind.conv2dSub8) →
      embedStep E xs masks = E.embedTM xs masks) ∧
    (E.embedKind = EmbedKind.conv2dSub →
      embedStepOne E xs masks = E.embedTM xs masks) ∧
    (E.embedKind ≠ EmbedKind.conv2dSub →
      embedStepOne E xs masks = (E.embedT xs, masks) ∧
      ∀ cache, (E.forward_one_step xs masks cache).2.1 = masks) := by
  refine ⟨?_, ?_, ?_⟩
  · intro h
    unfold embedStep
    rw [if_pos h]
  · intro h
    unfold embedStepOne
    rw [if_pos h]
  · intro h
    have hemb : embedStepOne E xs masks = (E.embedT xs, masks) := by
      unfold embedStepOne
      rw [if_neg h]
    refine ⟨hemb, fun cache => ?_⟩
    unfold Encoder.forward_one_step
    dsimp only
    rw [hemb]
    exact stepZip_mask_pres E.encoders hpres _ _ _

/-- Witness encoder for C10: a conv2d6-class embedder with one
mask-preserving layer. -/
def EwC10 : Encoder ℤ ℤ ℤ ℤ :=
  { embedKind := EmbedKind.conv2dSub6
    embedTM := fun x _ => (x, x.map (fun _ => 0))
    embedT := fun x => x
    encoders := [fun x m _ => (x, m)]
    normalize_before := false
    after_norm := fun x => x
    intermediate_layers := Option.none
    use_conditioning := false
    ctc_softmax := fun _ => 0
    conditioning_layer := fun _ => []
    add := fun a _ => a }

/-- Witness for C10: the conv2d6 embedder kind returns the caller's mask
unchanged from forward_one_step. -/
theorem c10_witness :
    EwC10.embedKind ≠ EmbedKind.conv2dSub ∧
    (EwC10.forward_one_step [4] [7] Option.none).2.1 = [7] :=
  ⟨by decide,
    ((c10_embed_dispatch EwC10 [4] [7]
      (by intro l hl x m c; simp only [EwC10, List.mem_singleton] at hl; subst hl; rfl)).2.2
        (by decide)).2 Option.none⟩

/-- Composing the layer stack over an appended list splits into the two
runs. -/
theorem runLayers_append (as bs : List (EncLayer V W)) :
    ∀ (x : List V) (m : List W),
      runLayers (as ++ bs) x m
        = runLayers bs (runLayers as x m).1 (runLayers as x m).2 := by
  induction as with
  | nil => intro x m; rfl
  | cons a as ih => intro x m; simp only [List.cons_append, runLayers]; exact ih _ _

/-- On a stretch of layers containing no configured tap index, the
tap-instrumented loop coincides with the plain loop and captures
nothing. -/
theorem runLayersInter_notap (E : Encoder R V W P) (ils : List ℕ) :
    ∀ (ls : List (EncLayer V W)) (idx : ℕ),
      (∀ k, k < ls.length → (idx + k + 1) ∉ ils) →
      ∀ (x : List V) (m : List W),
        runLayersInter E ils ls idx x m = ((runLayers ls x m).1, (runLayers ls x m).2, []) := by
  intro ls
  induction ls with
  | nil => intro idx _ x m; rfl
  | cons l ls ih =>
      intro idx hno x m
      have h0 : (idx + 1) ∉ ils := by
        have := hno 0 (by simp)
        simpa using this
      simp only [runLayersInter, runLayers, if_neg h0]
      exact ih (idx + 1) (fun k hk => by
        have := hno (k + 1) (by simpa using Nat.succ_lt_succ hk)
        have e1 : idx + (k + 1) + 1 = idx + 1 + k + 1 := by omega
        exact e1 ▸ this) _ _

/-- With mask-preserving and injective layers, distinct activations stay
distinct through the plain loop. -/
theorem runLayers_ne (ls : List (EncLayer V W))
    (hpres : ∀ l ∈ ls, ∀ x m c, (l x m c).2 = m)
    (hinj : ∀ l ∈ ls, ∀ m x₁ x₂, (l x₁ m Option.none).1 = (l x₂ m Option.none).1 → x₁ = x₂) :
    ∀ (m : List W) (x₁ x₂ : List V), x₁ ≠ x₂ →
      (runLayers ls x₁ m).1 ≠ (runLayers ls x₂ m).1 := by
  induction ls with
  | nil => intro m x₁ x₂ hne; exact hne
  | cons l ls ih =>
      intro m x₁ x₂ hne
      simp only [runLayers]
      rw [hpres l (List.mem_cons_self _ _) x₁ m Option.none,
        hpres l (List.mem_cons_self _ _) x₂ m Option.none]
      exact ih (fun l2 hl2 => hpres l2 (List.mem_cons_of_mem _ hl2))
        (fun l2 hl2 => hinj l2 (List.mem_cons_of_mem _ hl2)) m _ _
        (fun h => hne (hinj l (List.mem_cons_self _ _) m x₁ x₂ h))

/-- With conditioning enabled and exactly one tap configured on the
stretch, the tap-instrumented loop diverges from the plain loop: at the
tap the projected auxiliary prediction is added into the live activations
and never cancelled afterwards. -/
theorem runLayersInter_cond_ne (E : Encoder R V W P) (ils : List ℕ)
    (hcondT : E.use_conditioning = true)
    (hadd : ∀ (x y : List V), E.add x (E.conditioning_layer (E.ctc_softmax y)) ≠ x) :
    ∀ (ls : List (EncLayer V W)) (idx : ℕ),
      (∀ l ∈ ls, ∀ x m c, (l x m c).2 = m) →
      (∀ l ∈ ls, ∀ m x₁ x₂, (l x₁ m Option.none).1 = (l x₂ m Option.none).1 → x₁ = x₂) →
      (∃ k, k < ls.length ∧ (idx + k + 1) ∈ ils ∧
        ∀ k2, k2 < ls.length → k2 ≠ k → (idx + k2 + 1) ∉ ils) →
      ∀ (x : List V) (m : List W),
        (runLayersInter E ils ls idx x m).1 ≠ (runLayers ls x m).1 := by
  intro ls
  induction ls with
  | nil => intro idx _ _ hex x m; obtain ⟨k, hk, _⟩ := hex; exact absurd hk (by simp)
  | cons l ls ih =>
      intro idx hpres hinj hex x m
      obtain ⟨k, hk, htap, huniq⟩ := hex
      simp only [runLayersInter, runLayers]
      cases k with
      | zero =>
          have htap0 : (idx + 1) ∈ ils := by simpa using htap
          rw [if_pos htap0]
          have hnotail : ∀ k2, k2 < ls.length → (idx + 1 + k2 + 1) ∉ ils := by
            intro k2 hk2
            have := huniq (k2 + 1) (by simpa using Nat.succ_lt_succ hk2) (Nat.succ_ne_zero _)
            have e1 : idx + (k2 + 1) + 1 = idx + 1 + k2 + 1 := by omega
            exact e1 ▸ this
          rw [runLayersInter_notap E ils ls (idx + 1) hnotail]
          dsimp only
          rw [if_pos hcondT]
          exact runLayers_ne ls
            (fun l2 hl2 => hpres l2 (List.mem_cons_of_mem _ hl2))
            (fun l2 hl2 => hinj l2 (List.mem_cons_of_mem _ hl2)) _ _ _
            (hadd _ _)
      | succ j =>
          have htap0 : (idx + 1) ∉ ils := by
            have := huniq 0 (by simp) (by omega)
            simpa using this
          rw [if_neg htap0]
          exact ih (idx + 1)
            (fun l2 hl2 => hpres l2 (List.mem_cons_of_mem _ hl2))
            (fun l2 hl2 => hinj l2 (List.mem_cons_of_mem _ hl2))
            ⟨j, by simpa using hk, by
              have e1 : idx + (j + 1) + 1 = idx + 1 + j + 1 := by omega
              exact e1 ▸ htap, by
              intro k2 hk2 hk2ne
              have := huniq (k2 + 1) (by simpa using Nat.succ_lt_succ hk2) (by omega)
              have e1 : idx + (k2 + 1) + 1 = idx + 1 + k2 + 1 := by omega
              exact e1 ▸ this⟩ _ _

/-- C6: with conditioning enabled and a single configured tap that is hit
by the stack, the live activations are perturbed at the tap by adding the
projected auxiliary prediction, so the final activations differ from the
run of the same encoder with conditioning disabled, provided the
perturbation is not a fixed point of the addition (the contribution is
non-zero), the subsequent layers are injective in their activations and
preserve masks, and the final normalization is injective. -/
theorem c6_conditioning_feedback (E : Encoder R V W P) (ils : List ℕ)
    (xs : List R) (masks : List W)
    (hcondT : E.use_conditioning = true)
    (hinter : E.intermediate_layers = Option.some ils)
    (hpres : ∀ l ∈ E.encoders, ∀ x m c, (l x m c).2 = m)
    (hinj : ∀ l ∈ E.encoders, ∀ m x₁ x₂, (l x₁ m Option.none).1 = (l x₂ m Option.none).1 → x₁ = x₂)
    (hninj : ∀ x₁ x₂ : List V, E.after_norm x₁ = E.after_norm x₂ → x₁ = x₂)
    (hadd : ∀ (x y : List V), E.add x (E.conditioning_layer (E.ctc_softmax y)) ≠ x)
    (hsingle : ∃ k, k < E.encoders.length ∧ (k + 1) ∈ ils ∧
      ∀ k2, k2 < E.encoders.length → k2 ≠ k → (k2 + 1) ∉ ils) :
    (E.forward xs masks).1 ≠ (({ E with use_conditioning := false }).forward xs masks).1 := by
  have hne := runLayersInter_cond_ne E ils hcondT hadd E.encoders 0 hpres hinj
    (by
      obtain ⟨k, hk, htap, huniq⟩ := hsingle
      exact ⟨k, hk, by simpa using htap, fun k2 h2 h2ne => by
        have := huniq k2 h2 h2ne
        simpa using this⟩)
    (embedStep E xs masks).1 (embedStep E xs masks).2
  unfold Encoder.forward
  rw [hinter]
  dsimp only
  have hembC : embedStep
      { E with intermediate_layers := Option.some ils, use_conditioning := false } xs masks
      = embedStep E xs masks := rfl
  rw [hembC]
  have hnc := runLayersInter_nocond
    { E with intermediate_layers := Option.some ils, use_conditioning := false } rfl ils
    E.encoders 0 (embedStep E xs masks).1 (embedStep E xs masks).2
  by_cases hn : E.normalize_before = true
  · rw [if_pos hn, if_pos hn]
    intro h
    rw [hnc.1] at h
    exact hne (hninj _ _ h)
  · rw [if_neg hn, if_neg hn]
    intro h
    rw [hnc.1] at h
    exact hne h

/-- Witness encoder for C6: one identity layer, one tap at layer 1, a
conditioning path that appends a frame. -/
def EwC6 : Encoder ℤ ℤ ℤ ℤ :=
  { embedKind := EmbedKind.sequential
    embedTM := fun x _ => (x, x.map (fun _ => 0))
    embedT := fun x => x
    encoders := [fun x m _ => (x, m)]
    normalize_before := false
    after_norm := fun x => x
    intermediate_layers := Option.some [1]
    use_conditioning := true
    ctc_softmax := fun _ => 0
    conditioning_layer := fun _ => [5]
    add := fun a b => a ++ b }

/-- Witness for C6 at a concrete input: the conditioned run differs from
the non-conditioned run. -/
theorem c6_witness :
    EwC6.use_conditioning = true ∧
    (EwC6.forward [3] [0]).1 ≠ (({ EwC6 with use_conditioning := false }).forward [3] [0]).1 :=
  ⟨rfl,
    c6_conditioning_feedback EwC6 [1] [3] [0] rfl rfl
      (by intro l hl x m c; simp only [EwC6, List.mem_singleton] at hl; subst hl; rfl)
      (by intro l hl m x₁ x₂ h; simp only [EwC6, List.mem_singleton] at hl; subst hl; exact h)
      (fun x₁ x₂ h => h)
      (by
        intro x y h
        have hlen := congrArg List.length h
        simp [EwC6] at hlen)
      ⟨0, by simp [EwC6], by simp, fun k2 h2 h2ne => by
        simp only [EwC6, List.length_singleton] at h2
        exact absurd (by omega : k2 = 0) h2ne⟩⟩

/-! ### Incremental equivalence (claim C1)

The EncoderLayer instances and the conv2d embedder live outside this
repository; section 3 of the specification states their cache contract:
a cache entry holds the layer's full output history for the already
processed input, and, given a correctly accumulated history, the layer
reproduces exactly the activations of a full-sequence pass over the
concatenated input (the attention kernel is responsible for that
guarantee; the stack is responsible only for passing and extending the
cache correctly).  The hypotheses of StepSetup render that contract for
the call shapes the stack actually performs: the head layer receives only
the newly embedded chunk together with its own history entry, while every
deeper layer receives the full history produced by the layer below it. -/

/-- Ghost description of one stack: the per-layer batch functions, the
embedder activation map, and the contracts tying the runtime layer
functions to them at the full-visibility mask mf. -/
structure StepSetup (E : Encoder R V W P) (mf : List W) (Eact : List R → List V)
    (l0 : EncLayer V W) (ls : List (EncLayer V W)) (f0 : List V → List V)
    (fs : List (List V → List V)) : Prop where
  hclass : E.embedKind = EmbedKind.conv2dSub
  htaps : E.intermediate_layers = Option.none
  hlayers : E.encoders = l0 :: ls
  hembed : ∀ x, E.embedTM x mf = (Eact x, mf)
  hEadd : ∀ a b, Eact (a ++ b) = Eact a ++ Eact b
  hb0 : ∀ x, l0 x mf Option.none = (f0 x, mf)
  hs0 : ∀ prev nw, l0 nw mf (Option.some (f0 prev)) = (f0 (prev ++ nw), mf)
  hrest : List.Forall₂ (fun l f => ∀ x c, l x mf c = (f x, mf)) ls fs

/-- Composition over a cons cell. -/
theorem pipe_cons (f : List V → List V) (fs : List (List V → List V)) (x : List V) :
    pipe (f :: fs) x = pipe fs (f x) := rfl

/-- Per-layer outputs over a cons cell. -/
theorem pipeOuts_cons (f : List V → List V) (fs : List (List V → List V)) (x : List V) :
    pipeOuts (f :: fs) x = f x :: pipeOuts fs (f x) := rfl

/-- There is one per-layer output per batch function. -/
theorem pipeOuts_length : ∀ (fs : List (List V → List V)) (x : List V),
    (pipeOuts fs x).length = fs.length := by
  intro fs
  induction fs with
  | nil => intro x; rfl
  | cons f fs ih => intro x; simp only [pipeOuts, List.length_cons, ih]

/-- The deeper layers of the stack, receiving the full history as input,
reproduce their batch functions through the zip loop whatever their cache
entries are. -/
theorem stepZip_rest (mf : List W) {ls : List (EncLayer V W)} {fs : List (List V → List V)}
    (h : List.Forall₂ (fun l f => ∀ x c, l x mf c = (f x, mf)) ls fs) :
    ∀ (cs : List (Option (List V))) (x : List V), cs.length = ls.length →
      stepZip cs ls x mf = (pipe fs x, mf, pipeOuts fs x) := by
  induction h with
  | nil =>
      intro cs x hlen
      have hc : cs = [] := List.length_eq_zero.mp hlen
      subst hc
      rfl
  | @cons l f ls fs hlf hrest ih =>
      intro cs x hlen
      cases cs with
      | nil => simp at hlen
      | cons c cs =>
          simp only [stepZip, hlf x c]
          rw [ih cs (f x) (by simpa using hlen)]
          rfl

/-- The full batch pass through the deeper layers. -/
theorem runLayers_rest (mf : List W) {ls : List (EncLayer V W)} {fs : List (List V → List V)}
    (h : List.Forall₂ (fun l f => ∀ x c, l x mf c = (f x, mf)) ls fs) :
    ∀ (x : List V), runLayers ls x mf = (pipe fs x, mf) := by
  induction h with
  | nil => intro x; rfl
  | @cons l f ls fs hlf hrest ih =>
      intro x
      simp only [runLayers, hlf x Option.none]
      exact ih (f x)

/-- Batch forward at the full-visibility mask computes the composed batch
functions over the embedded input, with the final normalization. -/
theorem forward_batch_eval (E : Encoder R V W P) (mf : List W) (Eact : List R → List V)
    (l0 : EncLayer V W) (ls : List (EncLayer V W)) (f0 : List V → List V)
    (fs : List (List V → List V)) (hS : StepSetup E mf Eact l0 ls f0 fs) (x : List R) :
    (E.forward x mf).1
      = (if E.normalize_before = true then E.after_norm (pipe (f0 :: fs) (Eact x))
         else pipe (f0 :: fs) (Eact x)) := by
  unfold Encoder.forward
  rw [hS.htaps]
  dsimp only
  have hemb : embedStep E x mf = (Eact x, mf) := by
    unfold embedStep
    rw [if_pos (Or.inl hS.hclass)]
    exact hS.hembed x
  rw [hemb, hS.hlayers]
  simp only [runLayers, hS.hb0 (Eact x)]
  rw [runLayers_rest mf hS.hrest (f0 (Eact x))]
  rfl

/-- One incremental step with a fresh cache of None entries computes the
composed batch functions on the embedded chunk and fills the cache with
the per-layer outputs. -/
theorem stepZip_fresh (E : Encoder R V W P) (mf : List W) (Eact : List R → List V)
    (l0 : EncLayer V W) (ls : List (EncLayer V W)) (f0 : List V → List V)
    (fs : List (List V → List V)) (hS : StepSetup E mf Eact l0 ls f0 fs) (x : List V) :
    stepZip (List.replicate (l0 :: ls).length Option.none) (l0 :: ls) x mf
      = (pipe (f0 :: fs) x, mf, pipeOuts (f0 :: fs) x) := by
  simp only [List.length_cons, List.replicate, stepZip, hS.hb0 x]
  rw [stepZip_rest mf hS.hrest (List.replicate ls.length Option.none) (f0 x)
    (by simp [hS.hrest.length_eq])]
  rfl

/-- One incremental step whose cache holds the per-layer full histories
for a previously processed prefix extends every history to the
concatenation: the head layer completes its history through its cache
entry, the deeper layers recompute from the full history below. -/
theorem stepZip_carried (E : Encoder R V W P) (mf : List W) (Eact : List R → List V)
    (l0 : EncLayer V W) (ls : List (EncLayer V W)) (f0 : List V → List V)
    (fs : List (List V → List V)) (hS : StepSetup E mf Eact l0 ls f0 fs)
    (p nw : List V) :
    stepZip ((pipeOuts (f0 :: fs) p).map Option.some) (l0 :: ls) nw mf
      = (pipe (f0 :: fs) (p ++ nw), mf, pipeOuts (f0 :: fs) (p ++ nw)) := by
  simp only [pipeOuts_cons, List.map_cons, stepZip, hS.hs0 p nw]
  rw [stepZip_rest mf hS.hrest ((pipeOuts fs (f0 p)).map Option.some) (f0 (p ++ nw))
    (by simp [pipeOuts_length, hS.hrest.length_eq])]
  rfl

/-- Driver invariant: starting from a cache holding the per-layer
histories of a processed raw prefix p, the output of the k-th subsequent
step is the normalized composed batch value over the embedding of p
extended by the first k+1 remaining chunks. -/
theorem runChunks_carried (E : Encoder R V W P) (mf : List W) (Eact : List R → List V)
    (l0 : EncLayer V W) (ls : List (EncLayer V W)) (f0 : List V → List V)
    (fs : List (List V → List V)) (hS : StepSetup E mf Eact l0 ls f0 fs) :
    ∀ (rs : List (List R)) (p : List R) (k : ℕ), k < rs.length →
      (runChunks E mf rs
          (Option.some ((pipeOuts (f0 :: fs) (Eact p)).map Option.some)))[k]?
        = Option.some (if E.normalize_before = true
            then E.after_norm (pipe (f0 :: fs) (Eact (p ++ (rs.take (k + 1)).flatten)))
            else pipe (f0 :: fs) (Eact (p ++ (rs.take (k + 1)).flatten))) := by
  intro rs
  induction rs with
  | nil => intro p k hk; exact absurd hk (by simp)
  | cons c cs ih =>
      intro p k hk
      have hstep : E.forward_one_step c mf
          (Option.some ((pipeOuts (f0 :: fs) (Eact p)).map Option.some))
          = (if E.normalize_before = true
              then E.after_norm (pipe (f0 :: fs) (Eact (p ++ c)))
              else pipe (f0 :: fs) (Eact (p ++ c)), mf,
             pipeOuts (f0 :: fs) (Eact (p ++ c))) := by
        unfold Encoder.forward_one_step
        have hemb : embedStepOne E c mf = (Eact c, mf) := by
          unfold embedStepOne
          rw [if_pos hS.hclass]
          exact hS.hembed c
        rw [hemb]
        dsimp only
        rw [hS.hlayers, stepZip_carried E mf Eact l0 ls f0 fs hS (Eact p) (Eact c),
          ← hS.hEadd p c]
      simp only [runChunks, hstep]
      cases k with
      | zero =>
          simp only [List.getElem?_cons_zero, List.take_succ_cons, List.take_zero,
            List.flatten, List.append_nil]
      | succ k =>
          simp only [List.getElem?_cons_succ]
          rw [ih (p ++ c) k (by simpa using hk)]
          simp only [List.take_succ_cons, List.flatten, List.append_assoc]

/-- C1: for a conv2d-class stack with no taps and no conditioning, under
the full-visibility mask assumption and the stated per-layer cache
contract of EncoderLayer (StepSetup), repeatedly calling forward_one_step
on successive input chunks with the carried cache reproduces batch
forward: the k-th step output equals the one batch forward call over the
concatenation of the first k+1 chunks, and in particular the final step
output equals batch forward over the concatenation of all chunks. -/
theorem c1_incremental_equals_batch (E : Encoder R V W P) (mf : List W)
    (Eact : List R → List V) (l0 : EncLayer V W) (ls : List (EncLayer V W))
    (f0 : List V → List V) (fs : List (List V → List V))
    (hS : StepSetup E mf Eact l0 ls f0 fs)
    (chunks : List (List R)) (k : ℕ) (hk : k < chunks.length) :
    (runChunks E mf chunks Option.none)[k]?
      = Option.some ((E.forward ((chunks.take (k + 1)).flatten) mf).1) := by
  cases chunks with
  | nil => exact absurd hk (by simp)
  | cons c cs =>
      have hstep : E.forward_one_step c mf Option.none
          = (if E.normalize_before = true
              then E.after_norm (pipe (f0 :: fs) (Eact c))
              else pipe (f0 :: fs) (Eact c), mf,
             pipeOuts (f0 :: fs) (Eact c)) := by
        unfold Encoder.forward_one_step
        have hemb : embedStepOne E c mf = (Eact c, mf) := by
          unfold embedStepOne
          rw [if_pos hS.hclass]
          exact hS.hembed c
        rw [hemb]
        dsimp only
        rw [hS.hlayers, stepZip_fresh E mf Eact l0 ls f0 fs hS (Eact c)]
      simp only [runChunks, hstep]
      cases k with
      | zero =>
          rw [forward_batch_eval E mf Eact l0 ls f0 fs hS]
          simp only [List.getElem?_cons_zero, List.take_succ_cons, List.take_zero,
            List.flatten, List.append_nil]
      | succ k =>
          simp only [List.getElem?_cons_succ]
          rw [runChunks_carried E mf Eact l0 ls f0 fs hS cs c k (by simpa using hk),
            forward_batch_eval E mf Eact l0 ls f0 fs hS]
          simp only [List.take_succ_cons, List.flatten]

/-- Witness encoder for C1: a conv2d-class embedder, a head layer whose
cache entry is its full output history, and one cache-independent deeper
layer. -/
def EwC1 : Encoder ℤ ℤ ℤ ℤ :=
  { embedKind := EmbedKind.conv2dSub
    embedTM := fun x m => (x, m)
    embedT := fun x => x
    encoders := [fun x m c => ((c.getD []) ++ x, m), fun x m _ => (x.map (fun a => a + 1), m)]
    normalize_before := false
    after_norm := fun x => x
    intermediate_layers := Option.none
    use_conditioning := false
    ctc_softmax := fun _ => 0
    conditioning_layer := fun _ => []
    add := fun a _ => a }

/-- Witness for C1: two chunks, second step output equals batch forward
over the concatenation. -/
theorem c1_witness :
    (1 : ℕ) < [[(1 : ℤ)], [2]].length ∧
    (runChunks EwC1 [] [[(1 : ℤ)], [2]] Option.none)[1]?
      = Option.some ((EwC1.forward (([[(1 : ℤ)], [2]].take 2).flatten) []).1) :=
  ⟨by decide,
    c1_incremental_equals_batch EwC1 [] (fun x => x)
      (fun x m c => ((c.getD []) ++ x, m)) [fun x m _ => (x.map (fun a => a + 1), m)]
      (fun x => x) [fun x => x.map (fun a => a + 1)]
      { hclass := rfl
        htaps := rfl
        hlayers := rfl
        hembed := fun x => rfl
        hEadd := fun a b => rfl
        hb0 := fun x => rfl
        hs0 := fun prev nw => rfl
        hrest := by
          refine List.Forall₂.cons ?_ List.Forall₂.nil
          intro x c
          rfl }
      [[1], [2]] 1 (by decide)⟩

end JattsEncoder
